import Mathlib

/-!
Verification of the Game of Life board core of `src/main.rs`
(`Board<const W, const H>`: storage, generators, neighbour counting,
the step function `next`, and the interactive edit primitives).

The board is embedded shallowly: `Vec<bool>` becomes `List Bool`,
`usize` becomes `Nat`, `isize` becomes `Int`, the nested `for` loops
become folds/structural recursion in the same iteration order, and the
`f32` values arising in `Board::line` are modelled exactly (see `roundF`,
`usizeOfF32` below).
-/

/-- Rust's inclusive range `lo..=hi` as the list of its elements in order
(empty when `hi < lo`). -/
def rangeIncl (lo hi : Nat) : List Nat :=
  (List.range (hi + 1 - lo)).map (fun k => lo + k)

/-- All points of a rectangular window, outer iteration over `ys`, inner over
`xs`, matching the nested loop order `for _y in .. for _x in ..` of
`Board::neighbours` (each element is the `(px, py)` pair visited). -/
def gridPoints (xs ys : List Nat) : List (Nat × Nat) :=
  match ys with
  | [] => []
  | py :: rest => xs.map (fun px => (px, py)) ++ gridPoints xs rest

/-- `struct Board<const W: usize, const H: usize> { fields: Vec<bool> }`:
one boolean per cell, row-major (`self[y][x]` is `fields[y * W + x]`, via the
`Index`/`IndexMut` impls that slice `fields[y*W .. (y+1)*W]`). -/
structure Board (W H : Nat) where
  fields : List Bool

variable {W H : Nat}

/-- Cell read `self[y][x]`, i.e. `fields[y * W + x]`. Out-of-range access
panics in Rust (a contract violation per the spec); the embedding totalises it
with default `false` — every theorem below only reads in-bounds cells of
boards whose storage has the invariant length. -/
def Board.get (b : Board W H) (x y : Nat) : Bool :=
  b.fields.getD (y * W + x) false

/-- Cell write `self[y][x] = v`. `List.set` is a no-op out of range, matching
the in-bounds-only contract of the Rust indexing. -/
def Board.set (b : Board W H) (x y : Nat) (v : Bool) : Board W H :=
  ⟨b.fields.set (y * W + x) v⟩

/-- `Board::new(fields)`. -/
def Board.new (fields : List Bool) : Board W H :=
  ⟨fields⟩

/-- `Board::clear()`: `Self::new(vec![false; H * W])`. -/
def Board.clear : Board W H :=
  Board.new (List.replicate (H * W) false)

/-- `Board::generate(method)`: map `method(n % W, n / W)` over `0..H*W` and
collect the results as the new storage. -/
def Board.generate (method : Nat → Nat → Bool) : Board W H :=
  Board.new ((List.range (H * W)).map (fun n => method (n % W) (n / W)))

/-- `Board::random()`: `generate(|_, _| rand::random())`. The `rand` crate is
external to this repository; each per-cell draw is modelled by an arbitrary
boolean oracle (indexed by the cell coordinates handed to the closure). -/
def Board.random (coin : Nat → Nat → Bool) : Board W H :=
  Board.generate (fun x y => coin x y)

/-- `Board::perlin()`: thresholds an external Perlin noise field at `0.0`.
The `noise` crate is external to this repository; the sampled `f64` value
`noise.get([x * PERLIN_SCALE, y * PERLIN_SCALE])` is modelled by an arbitrary
rational-valued oracle of the cell coordinates (the seed and the fixed scale
are absorbed into the oracle). -/
def Board.perlin (sample : Nat → Nat → ℚ) : Board W H :=
  Board.generate (fun x y => sample x y < 0)

/-- `Board::billow()`: thresholds an external Billow noise field at `-0.5`;
the sampled value is modelled by an oracle as in `Board.perlin`. -/
def Board.billow (sample : Nat → Nat → ℚ) : Board W H :=
  Board.generate (fun x y => sample x y < -(1 / 2))

/-- `Board::worley()`: thresholds an external Worley noise field at `-0.5`;
the sampled value is modelled by an oracle as in `Board.perlin`. -/
def Board.worley (sample : Nat → Nat → ℚ) : Board W H :=
  Board.generate (fun x y => sample x y < -(1 / 2))

/-- Inner loop of `Board::draw`: `for (x, val) in row.chars().enumerate()`
writes `self[y_offset + y][x_offset + x] = val == '#'` left to right; `x` is
the running enumeration index. -/
def Board.drawRow (b : Board W H) (x_offset yabs x : Nat) : List Char → Board W H
  | [] => b
  | val :: rest =>
    Board.drawRow (b.set (x_offset + x) yabs (val == '#')) x_offset yabs (x + 1) rest

/-- Outer loop of `Board::draw`: `for (y, row) in grid.iter().enumerate()`;
`y` is the running enumeration index. -/
def Board.drawRows (b : Board W H) (x_offset y_offset y : Nat) : List String → Board W H
  | [] => b
  | row :: rest =>
    Board.drawRows (b.drawRow x_offset (y_offset + y) 0 row.toList) x_offset y_offset (y + 1) rest

/-- `Board::draw(x_offset, y_offset, grid)`. -/
def Board.draw (b : Board W H) (x_offset y_offset : Nat) (grid : List String) : Board W H :=
  b.drawRows x_offset y_offset 0 grid

/-- `Board::glider()`: clear board, then draw the glider stamp at `(10, 10)`. -/
def Board.glider : Board W H :=
  Board.draw Board.clear 10 10 ["  #", "# #", " ##"]

/-- `Board::glider_gun()`: clear board, then draw the gun stamp at `(10, 10)`. -/
def Board.glider_gun : Board W H :=
  Board.draw Board.clear 10 10 [
    "                        #           ",
    "                      # #           ",
    "            ##      ##            ##",
    "           #   #    ##            ##",
    "##        #     #   ##              ",
    "##        #   # ##    # #           ",
    "          #     #       #           ",
    "           #   #                    ",
    "            ##                      "]

/-- `Board::neighbours(x, y)`: count alive cells in the clamped window around
`(x, y)`, skipping the cell itself; the two nested `for` loops over inclusive
ranges become folds in the same order. -/
def Board.neighbours (b : Board W H) (x y : Nat) : Nat :=
  let x_low := if x = 0 then 0 else x - 1
  let x_high := if x = W - 1 then W - 1 else x + 1
  let y_low := if y = 0 then 0 else y - 1
  let y_high := if y = H - 1 then H - 1 else y + 1
  (rangeIncl y_low y_high).foldl (fun acc py =>
    (rangeIncl x_low x_high).foldl (fun acc2 px =>
      if (px, py) = (x, y) then acc2
      else if b.get px py then acc2 + 1 else acc2) acc) 0

/-- `Board::next()`: a fresh board generated from the pre-step board `b` by
the Life rule `match (val, neighbours)`. -/
def Board.next (b : Board W H) : Board W H :=
  Board.generate (fun x y =>
    match b.get x y, b.neighbours x y with
    | true, 2 => true
    | _, 3 => true
    | _, _ => false)

/-- The Life rule of `Board::next`, factored out for stating theorems; it is
definitionally the `match` used in `Board.next`. -/
def lifeRule (val : Bool) (neighbours : Nat) : Bool :=
  match val, neighbours with
  | true, 2 => true
  | _, 3 => true
  | _, _ => false

/-- `f32::round`: round half away from zero (exact on rationals). -/
def roundF (q : ℚ) : ℚ :=
  if q < 0 then -(Int.floor (-q + 1 / 2) : ℚ) else (Int.floor (q + 1 / 2) : ℚ)

/-- An `f32` value arising in `Board::line`, modelled exactly: `none` is NaN —
in `line` the only division by zero is `0.0 / 0.0` (since `|xd| ≤ md` and
`|yd| ≤ md`, `md = 0` forces `xd = yd = 0`), which yields NaN, and NaN
propagates through `*`, `round` and `+`. Finite values are exact rationals;
every `f32` operation reached by the theorems below has an exactly
representable result, on which IEEE `f32` arithmetic coincides with `ℚ`. -/
def fdiv (a : Int) (b : Nat) : Option ℚ :=
  if b = 0 then none else some ((a : ℚ) / (b : ℚ))

/-- `as usize` cast of an `f32`: NaN casts to `0`, negative values saturate to
`0`, otherwise truncate toward zero (the values reached here are far below
`usize::MAX`, so the upper saturation never fires). -/
def usizeOfF32 (v : Option ℚ) : Nat :=
  match v with
  | none => 0
  | some q => if q < 0 then 0 else (Int.floor q).toNat

/-- `Board::line(x1, y1, x2, y2, val)`: Bresenham-style interpolation with
`md = max(|xd|, |yd|)` steps; per step `i` the written cell is
`((x1 as f32 + (xf * i as f32).round()) as usize, ..)`. -/
def Board.line (b : Board W H) (x1 y1 x2 y2 : Nat) (val : Bool) : Board W H :=
  let xd : Int := (x2 : Int) - (x1 : Int)
  let yd : Int := (y2 : Int) - (y1 : Int)
  let md : Nat := max xd.natAbs yd.natAbs
  let xf : Option ℚ := fdiv xd md
  let yf : Option ℚ := fdiv yd md
  (rangeIncl 0 md).foldl (fun bd (i : Nat) =>
    let x := usizeOfF32 (xf.map (fun r => (x1 : ℚ) + roundF (r * (i : ℚ))))
    let y := usizeOfF32 (yf.map (fun r => (y1 : ℚ) + roundF (r * (i : ℚ))))
    bd.set x y val) b

/-- The positions actually visited (and not skipped) by the nested loops of
`Board::neighbours`: the clamped window written with the very bounds computed
in the source, minus the cell itself. -/
def neighbourCandidates (W H x y : Nat) : List (Nat × Nat) :=
  let x_low := if x = 0 then 0 else x - 1
  let x_high := if x = W - 1 then W - 1 else x + 1
  let y_low := if y = 0 then 0 else y - 1
  let y_high := if y = H - 1 then H - 1 else y + 1
  (gridPoints (rangeIncl x_low x_high) (rangeIncl y_low y_high)).filter
    (fun p => p ≠ (x, y))

/-- The neighbourhood window exactly as the spec words it:
`[max(x-1,0), min(x+1,W-1)] × [max(y-1,0), min(y+1,H-1)]`; truncated `Nat`
subtraction makes `x - 1` exactly `max(x-1, 0)`. -/
def specWindow (W H x y : Nat) : List (Nat × Nat) :=
  gridPoints (rangeIncl (x - 1) (min (x + 1) (W - 1)))
    (rangeIncl (y - 1) (min (y + 1) (H - 1)))

/-- The five alive cells of the glider stamp drawn at offset `(10, 10)`. -/
def gliderCells : List (Nat × Nat) :=
  [(12, 10), (10, 11), (12, 11), (11, 12), (12, 12)]

/-- `q` lies in the unclamped 3×3 box centred at `(x, y)` (the cell itself
included). -/
def cellNear (q : Nat × Nat) (x y : Nat) : Bool :=
  decide (x ≤ q.1 + 1) && decide (q.1 ≤ x + 1) && decide (y ≤ q.2 + 1) && decide (q.2 ≤ y + 1)

/-- Number of cells of the finite set `S` adjacent to `(x, y)` (cell itself
excluded) — the neighbour count of `(x, y)` on any large-enough board whose
alive cells are exactly `S`. -/
def localCount (S : List (Nat × Nat)) (x y : Nat) : Nat :=
  (S.filter (fun q => decide (q ≠ (x, y)) && cellNear q x y)).length

/-- The board `b` has exactly the alive-cell set `S` (over in-bounds cells). -/
def BoardMatches (b : Board W H) (S : List (Nat × Nat)) : Prop :=
  ∀ x y, x < W → y < H → b.get x y = decide ((x, y) ∈ S)

/-! ### Basic facts about `rangeIncl` and `gridPoints` -/

theorem mem_rangeIncl {lo hi a : Nat} : a ∈ rangeIncl lo hi ↔ lo ≤ a ∧ a ≤ hi := by
  simp only [rangeIncl, List.mem_map, List.mem_range]
  constructor
  · rintro ⟨k, hk, rfl⟩
    omega
  · rintro ⟨h1, h2⟩
    exact ⟨a - lo, by omega, by omega⟩

theorem length_rangeIncl (lo hi : Nat) : (rangeIncl lo hi).length = hi + 1 - lo := by
  simp [rangeIncl]

theorem nodup_rangeIncl (lo hi : Nat) : (rangeIncl lo hi).Nodup := by
  refine List.Nodup.map ?_ (List.nodup_range _)
  intro a b h
  dsimp only at h
  omega

theorem mem_gridPoints {xs ys : List Nat} {p : Nat × Nat} :
    p ∈ gridPoints xs ys ↔ p.1 ∈ xs ∧ p.2 ∈ ys := by
  obtain ⟨p1, p2⟩ := p
  induction ys with
  | nil => simp [gridPoints]
  | cons py rest ih =>
    simp only [gridPoints, List.mem_append, List.mem_map, List.mem_cons, ih, Prod.mk.injEq]
    constructor
    · rintro (⟨px, hpx, rfl, rfl⟩ | ⟨h1, h2⟩)
      · exact ⟨hpx, Or.inl rfl⟩
      · exact ⟨h1, Or.inr h2⟩
    · rintro ⟨h1, rfl | h2⟩
      · exact Or.inl ⟨p1, h1, rfl, rfl⟩
      · exact Or.inr ⟨h1, h2⟩

theorem length_gridPoints (xs ys : List Nat) :
    (gridPoints xs ys).length = ys.length * xs.length := by
  induction ys with
  | nil => simp [gridPoints]
  | cons py rest ih =>
    simp [gridPoints, ih, Nat.succ_mul]
    omega

theorem nodup_gridPoints {xs ys : List Nat} (hxs : xs.Nodup) (hys : ys.Nodup) :
    (gridPoints xs ys).Nodup := by
  induction ys with
  | nil => simp [gridPoints]
  | cons py rest ih =>
    rw [List.nodup_cons] at hys
    simp only [gridPoints]
    refine List.Nodup.append ?_ (ih hys.2) ?_
    · refine List.Nodup.map ?_ hxs
      intro a b h
      exact congrArg Prod.fst h
    · intro a ha hb
      rw [List.mem_map] at ha
      obtain ⟨px, _, rfl⟩ := ha
      rw [mem_gridPoints] at hb
      exact hys.1 hb.2

/-! ### Basic facts about the board storage -/

theorem Board.length_set (b : Board W H) (x y : Nat) (v : Bool) :
    (b.set x y v).fields.length = b.fields.length := by
  simp [Board.set]

theorem Board.length_clear : (Board.clear : Board W H).fields.length = H * W := by
  simp [Board.clear, Board.new]

theorem Board.length_generate (method : Nat → Nat → Bool) :
    (Board.generate method : Board W H).fields.length = H * W := by
  simp [Board.generate, Board.new]

theorem Board.get_clear (x y : Nat) : (Board.clear : Board W H).get x y = false := by
  unfold Board.clear Board.new Board.get
  rw [List.getD_eq_getElem?_getD, List.getElem?_replicate]
  split <;> rfl

theorem rowMajorIdx_inj {a c x y : Nat} (ha : a < W) (hx : x < W)
    (h : c * W + a = y * W + x) : a = x ∧ c = y := by
  have h1 : (c * W + a) % W = (y * W + x) % W := by rw [h]
  rw [Nat.mul_comm c W, Nat.mul_comm y W, Nat.mul_add_mod, Nat.mul_add_mod,
    Nat.mod_eq_of_lt ha, Nat.mod_eq_of_lt hx] at h1
  subst h1
  refine ⟨rfl, ?_⟩
  have hW : 0 < W := Nat.lt_of_le_of_lt (Nat.zero_le a) ha
  have h2 : c * W = y * W := by omega
  exact Nat.eq_of_mul_eq_mul_right hW h2

theorem Board.get_set (b : Board W H) (a c x y : Nat) (v : Bool)
    (hlen : H * W ≤ b.fields.length) (ha : a < W) (hc : c < H)
    (hx : x < W) (hy : y < H) :
    (b.set a c v).get x y = if x = a ∧ y = c then v else b.get x y := by
  by_cases hxy : x = a ∧ y = c
  · obtain ⟨rfl, rfl⟩ := hxy
    rw [if_pos ⟨rfl, rfl⟩]
    unfold Board.set Board.get
    have hidx : y * W + x < b.fields.length := by
      calc y * W + x < y * W + W := by omega
        _ = (y + 1) * W := by ring
        _ ≤ H * W := Nat.mul_le_mul_right W hy
        _ ≤ b.fields.length := hlen
    rw [List.getD_eq_getElem?_getD, List.getElem?_set_self hidx, Option.getD_some]
  · rw [if_neg hxy]
    unfold Board.set Board.get
    have hne : c * W + a ≠ y * W + x := by
      intro h
      obtain ⟨h1, h2⟩ := rowMajorIdx_inj ha hx h
      exact hxy ⟨h1.symm, h2.symm⟩
    rw [List.getD_eq_getElem?_getD, List.getD_eq_getElem?_getD, List.getElem?_set_ne hne]

theorem Board.get_generate (method : Nat → Nat → Bool) (x y : Nat)
    (hx : x < W) (hy : y < H) :
    (Board.generate method : Board W H).get x y = method x y := by
  have hW : 0 < W := Nat.lt_of_le_of_lt (Nat.zero_le x) hx
  have hidx : y * W + x < H * W := by
    calc y * W + x < y * W + W := by omega
      _ = (y + 1) * W := by ring
      _ ≤ H * W := Nat.mul_le_mul_right W hy
  have hmod : (y * W + x) % W = x := by
    rw [Nat.mul_comm y W, Nat.mul_add_mod]
    exact Nat.mod_eq_of_lt hx
  have hdiv : (y * W + x) / W = y := by
    rw [Nat.mul_comm y W, Nat.mul_add_div hW, Nat.div_eq_of_lt hx]
    omega
  unfold Board.generate Board.new Board.get
  rw [List.getD_eq_getElem?_getD, List.getElem?_map, List.getElem?_range hidx]
  simp only [Option.map_some', Option.getD_some]
  rw [hmod, hdiv]

/-! ### The candidate list scanned by `Board::neighbours` -/

theorem foldl_count {α : Type} (p : α → Bool) (l : List α) (acc : Nat) :
    l.foldl (fun a c => if p c then a + 1 else a) acc = acc + l.countP p := by
  induction l generalizing acc with
  | nil => simp
  | cons c l ih =>
    rw [List.foldl_cons, ih, List.countP_cons]
    by_cases h : p c <;> simp [h] <;> omega

theorem foldl_add_sum {α : Type} (g : α → Nat) (l : List α) (acc : Nat) :
    l.foldl (fun a c => a + g c) acc = acc + (l.map g).sum := by
  induction l generalizing acc with
  | nil => simp
  | cons c l ih =>
    rw [List.foldl_cons, ih]
    simp [List.sum_cons]
    omega

theorem countP_gridPoints (pr : Nat × Nat → Bool) (xs ys : List Nat) :
    (gridPoints xs ys).countP pr
      = (ys.map (fun py => xs.countP (fun px => pr (px, py)))).sum := by
  induction ys with
  | nil => simp [gridPoints]
  | cons py rest ih =>
    simp only [gridPoints, List.countP_append, ih, List.countP_map, List.map_cons,
      List.sum_cons]
    rfl

theorem nested_fold_eq_countP (b : Board W H) (x y : Nat) (lxs lys : List Nat) :
    lys.foldl (fun acc py =>
      lxs.foldl (fun acc2 px =>
        if (px, py) = (x, y) then acc2
        else if b.get px py then acc2 + 1 else acc2) acc) 0
    = ((gridPoints lxs lys).filter (fun p => p ≠ (x, y))).countP
        (fun p => b.get p.1 p.2) := by
  have hstep : ∀ py : Nat, (fun (acc2 : Nat) px =>
        if (px, py) = (x, y) then acc2
        else if b.get px py then acc2 + 1 else acc2)
      = (fun acc2 px =>
          if (!decide ((px, py) = (x, y)) && b.get px py) then acc2 + 1 else acc2) := by
    intro py
    funext acc2 px
    by_cases h : (px, py) = (x, y) <;> by_cases hg : b.get px py <;> simp [h, hg]
  have houter : (fun (acc : Nat) (py : Nat) =>
        lxs.foldl (fun acc2 px =>
          if (px, py) = (x, y) then acc2
          else if b.get px py then acc2 + 1 else acc2) acc)
      = (fun acc py =>
          acc + lxs.countP (fun px => !decide ((px, py) = (x, y)) && b.get px py)) := by
    funext acc py
    rw [hstep py, foldl_count]
  rw [houter, foldl_add_sum, List.countP_filter, countP_gridPoints]
  simp only [Nat.zero_add]
  have hmapfun : (fun (py : Nat) =>
        lxs.countP (fun px => !decide ((px, py) = (x, y)) && b.get px py))
      = (fun (py : Nat) =>
          lxs.countP (fun px => b.get px py && decide ((px, py) ≠ (x, y)))) := by
    funext py
    have hpred : (fun px => !decide ((px, py) = (x, y)) && b.get px py)
        = (fun (px : Nat) => b.get px py && decide ((px, py) ≠ (x, y))) := by
      funext px
      by_cases h : (px, py) = (x, y) <;> simp [h]
    rw [hpred]
  rw [hmapfun]

/-- `Board::neighbours` counts the alive cells among exactly the candidate
positions of `neighbourCandidates`. -/
theorem Board.neighbours_eq_countP (b : Board W H) (x y : Nat) :
    b.neighbours x y
      = (neighbourCandidates W H x y).countP (fun p => b.get p.1 p.2) := by
  simp only [Board.neighbours, neighbourCandidates]
  exact nested_fold_eq_countP b x y _ _

theorem nodup_neighbourCandidates (W H x y : Nat) :
    (neighbourCandidates W H x y).Nodup := by
  simp only [neighbourCandidates]
  exact List.Nodup.filter _ (nodup_gridPoints (nodup_rangeIncl _ _) (nodup_rangeIncl _ _))

theorem mem_neighbourCandidates {W H x y px py : Nat} :
    (px, py) ∈ neighbourCandidates W H x y ↔
      ((if x = 0 then 0 else x - 1) ≤ px
        ∧ px ≤ (if x = W - 1 then W - 1 else x + 1)
        ∧ (if y = 0 then 0 else y - 1) ≤ py
        ∧ py ≤ (if y = H - 1 then H - 1 else y + 1)
        ∧ (px, py) ≠ (x, y)) := by
  simp only [neighbourCandidates, List.mem_filter, mem_gridPoints, mem_rangeIncl,
    decide_eq_true_eq]
  tauto

/-! ### Counting helpers -/

theorem countP_mem_comm {l1 l2 : List (Nat × Nat)}
    (h1 : l1.Nodup) (h2 : l2.Nodup) :
    l1.countP (fun a => decide (a ∈ l2)) = l2.countP (fun a => decide (a ∈ l1)) := by
  rw [List.countP_eq_length_filter, List.countP_eq_length_filter]
  have n1 : (l1.filter (fun a => decide (a ∈ l2))).Nodup := List.Nodup.filter _ h1
  have n2 : (l2.filter (fun a => decide (a ∈ l1))).Nodup := List.Nodup.filter _ h2
  rw [← List.toFinset_card_of_nodup n1, ← List.toFinset_card_of_nodup n2]
  congr 1
  ext a
  simp only [List.mem_toFinset, List.mem_filter, decide_eq_true_eq]
  tauto

theorem length_filter_ne_of_nodup {α : Type} [DecidableEq α] {l : List α} {a : α}
    (hnd : l.Nodup) (ha : a ∈ l) :
    (l.filter (fun p => p ≠ a)).length = l.length - 1 := by
  have hfe : (fun (p : α) => decide (p ≠ a)) = (fun p => p != a) := by
    funext p
    by_cases h : p = a <;> simp [h]
  rw [hfe, ← List.Nodup.erase_eq_filter hnd a]
  exact List.length_erase_of_mem ha

/-! ### The step function and the Life rule -/

theorem Board.next_eq_generate_lifeRule (b : Board W H) :
    b.next = Board.generate (fun x y => lifeRule (b.get x y) (b.neighbours x y)) := rfl

theorem Board.get_next (b : Board W H) (x y : Nat) (hx : x < W) (hy : y < H) :
    (b.next).get x y = lifeRule (b.get x y) (b.neighbours x y) := by
  rw [Board.next_eq_generate_lifeRule, Board.get_generate _ x y hx hy]

theorem lifeRule_eq_true_iff (v : Bool) (n : Nat) :
    lifeRule v n = true ↔ ((v = true ∧ n = 2) ∨ n = 3) := by
  cases v <;> rcases n with _ | _ | _ | _ | n <;> simp [lifeRule] <;> omega

theorem Board.generate_congr {m1 m2 : Nat → Nat → Bool} (h : ∀ x y, m1 x y = m2 x y) :
    (Board.generate m1 : Board W H) = Board.generate m2 := by
  unfold Board.generate Board.new
  have : m1 = m2 := funext fun x => funext fun y => h x y
  rw [this]

/-! ### Storage size of every operation -/

theorem Board.length_drawRow (b : Board W H) (xo ya x0 : Nat) (cs : List Char) :
    (b.drawRow xo ya x0 cs).fields.length = b.fields.length := by
  induction cs generalizing b x0 with
  | nil => rfl
  | cons c cs ih =>
    rw [Board.drawRow, ih, Board.length_set]

theorem Board.length_drawRows (b : Board W H) (xo yo y0 : Nat) (grid : List String) :
    (b.drawRows xo yo y0 grid).fields.length = b.fields.length := by
  induction grid generalizing b y0 with
  | nil => rfl
  | cons row grid ih =>
    rw [Board.drawRows, ih, Board.length_drawRow]

theorem Board.length_draw (b : Board W H) (xo yo : Nat) (grid : List String) :
    (b.draw xo yo grid).fields.length = b.fields.length :=
  Board.length_drawRows b xo yo 0 grid

theorem Board.length_line (b : Board W H) (x1 y1 x2 y2 : Nat) (v : Bool) :
    (b.line x1 y1 x2 y2 v).fields.length = b.fields.length := by
  simp only [Board.line]
  generalize rangeIncl 0 _ = l
  induction l generalizing b with
  | nil => rfl
  | cons i l ih =>
    rw [List.foldl_cons, ih]
    exact Board.length_set _ _ _ _

/-! ## Claim C1 -/

/-- C1: for every board and every in-bounds cell `(x, y)`, the cell of
`next(B)` is alive iff it was alive in `B` with exactly 2 alive neighbours,
or it has exactly 3 alive neighbours in `B`; otherwise it is dead. All counts
are taken on the pre-step board `B` (the statement only mentions `b`). -/
theorem C1_next_follows_life_rule (b : Board W H) (x y : Nat)
    (hx : x < W) (hy : y < H) :
    (b.next).get x y = true ↔
      ((b.get x y = true ∧ b.neighbours x y = 2) ∨ b.neighbours x y = 3) := by
  rw [Board.get_next b x y hx hy]
  exact lifeRule_eq_true_iff _ _

/-- Witness for C1 at a concrete board and cell. -/
theorem C1_witness :
    ((Board.new [false, true, true, true, false, false, false, false, false] :
        Board 3 3).next.get 1 1 = true ↔
      (((Board.new [false, true, true, true, false, false, false, false, false] :
            Board 3 3).get 1 1 = true
          ∧ (Board.new [false, true, true, true, false, false, false, false, false] :
            Board 3 3).neighbours 1 1 = 2)
        ∨ (Board.new [false, true, true, true, false, false, false, false, false] :
            Board 3 3).neighbours 1 1 = 3)) :=
  C1_next_follows_life_rule _ 1 1 (by decide) (by decide)

/-! ## Claim C2 -/

/-- C2: `neighbours(x, y)` equals the number of alive cells in the clamped
window `[max(x-1,0), min(x+1,W-1)] × [max(y-1,0), min(y+1,H-1)]` with the
cell itself removed — no off-grid or wrapped-around position is counted and
the cell itself is never counted. -/
theorem C2_neighbours_clamped_window (b : Board W H) (x y : Nat)
    (hx : x < W) (hy : y < H) :
    b.neighbours x y
      = ((specWindow W H x y).filter (fun p => p ≠ (x, y))).countP
          (fun p => b.get p.1 p.2) := by
  rw [Board.neighbours_eq_countP]
  have hxl : (if x = 0 then 0 else x - 1) = x - 1 := by split <;> omega
  have hyl : (if y = 0 then 0 else y - 1) = y - 1 := by split <;> omega
  have hxh : (if x = W - 1 then W - 1 else x + 1) = min (x + 1) (W - 1) := by
    split <;> omega
  have hyh : (if y = H - 1 then H - 1 else y + 1) = min (y + 1) (H - 1) := by
    split <;> omega
  simp only [neighbourCandidates, specWindow, hxl, hyl, hxh, hyh]

/-- Witness for C2 at a concrete board and cell. -/
theorem C2_witness :
    (Board.new [true, false, true, false, true, false, true, false, true] :
        Board 3 3).neighbours 1 1
      = ((specWindow 3 3 1 1).filter (fun p => p ≠ (1, 1))).countP
          (fun p => (Board.new [true, false, true, false, true, false, true, false, true] :
            Board 3 3).get p.1 p.2) :=
  C2_neighbours_clamped_window _ 1 1 (by decide) (by decide)

/-! ## Claim C7 -/

/-- C7: on a board with `W, H ≥ 2` the neighbour count of a corner cell is
computed over at most 3 candidate positions (the cell itself excluded), of an
edge (non-corner) cell over at most 5, and of an interior cell over exactly
8; and `neighbours` counts alive cells over exactly this candidate list. -/
theorem C7_candidate_counts (W H x y : Nat) (hW : 2 ≤ W) (hH : 2 ≤ H)
    (hx : x < W) (hy : y < H) :
    (∀ b : Board W H, b.neighbours x y
        = (neighbourCandidates W H x y).countP (fun p => b.get p.1 p.2))
    ∧ ((x = 0 ∨ x = W - 1) ∧ (y = 0 ∨ y = H - 1) →
        (neighbourCandidates W H x y).length ≤ 3)
    ∧ ((((x = 0 ∨ x = W - 1) ∧ ¬(y = 0 ∨ y = H - 1))
        ∨ (¬(x = 0 ∨ x = W - 1) ∧ (y = 0 ∨ y = H - 1))) →
        (neighbourCandidates W H x y).length ≤ 5)
    ∧ ((1 ≤ x ∧ x + 1 < W ∧ 1 ≤ y ∧ y + 1 < H) →
        (neighbourCandidates W H x y).length = 8) := by
  have hself : ((x, y) : Nat × Nat) ∈ gridPoints
      (rangeIncl (if x = 0 then 0 else x - 1) (if x = W - 1 then W - 1 else x + 1))
      (rangeIncl (if y = 0 then 0 else y - 1) (if y = H - 1 then H - 1 else y + 1)) := by
    simp only [mem_gridPoints, mem_rangeIncl]
    refine ⟨⟨?_, ?_⟩, ⟨?_, ?_⟩⟩ <;> split <;> omega
  have hlen : (neighbourCandidates W H x y).length
      = (rangeIncl (if y = 0 then 0 else y - 1)
            (if y = H - 1 then H - 1 else y + 1)).length
        * (rangeIncl (if x = 0 then 0 else x - 1)
            (if x = W - 1 then W - 1 else x + 1)).length - 1 := by
    simp only [neighbourCandidates]
    rw [length_filter_ne_of_nodup
        (nodup_gridPoints (nodup_rangeIncl _ _) (nodup_rangeIncl _ _)) hself,
      length_gridPoints]
  have hxlen : (rangeIncl (if x = 0 then 0 else x - 1)
        (if x = W - 1 then W - 1 else x + 1)).length
      = if x = 0 ∨ x = W - 1 then 2 else 3 := by
    rw [length_rangeIncl]
    have hW1 : ¬(W - 1 = 0) := by omega
    by_cases h0 : x = 0 <;> by_cases h1 : x = W - 1 <;> simp [h0, h1, hW1] <;> omega
  have hylen : (rangeIncl (if y = 0 then 0 else y - 1)
        (if y = H - 1 then H - 1 else y + 1)).length
      = if y = 0 ∨ y = H - 1 then 2 else 3 := by
    rw [length_rangeIncl]
    have hH1 : ¬(H - 1 = 0) := by omega
    by_cases h0 : y = 0 <;> by_cases h1 : y = H - 1 <;> simp [h0, h1, hH1] <;> omega
  refine ⟨fun b => Board.neighbours_eq_countP b x y, ?_, ?_, ?_⟩
  · rintro ⟨hcx, hcy⟩
    rw [hlen, hxlen, hylen, if_pos hcx, if_pos hcy]
  · rintro (⟨hcx, hcy⟩ | ⟨hcx, hcy⟩)
    · rw [hlen, hxlen, hylen, if_pos hcx, if_neg hcy]
    · rw [hlen, hxlen, hylen, if_neg hcx, if_pos hcy]
  · rintro ⟨h1, h2, h3, h4⟩
    have hcx : ¬(x = 0 ∨ x = W - 1) := by omega
    have hcy : ¬(y = 0 ∨ y = H - 1) := by omega
    rw [hlen, hxlen, hylen, if_neg hcx, if_neg hcy]

/-- Witness for C7 on a concrete 4×4 board: a corner, an edge and an interior
cell. -/
theorem C7_witness :
    ((Board.clear : Board 4 4).neighbours 0 0
        = (neighbourCandidates 4 4 0 0).countP
            (fun p => (Board.clear : Board 4 4).get p.1 p.2))
    ∧ (neighbourCandidates 4 4 0 0).length ≤ 3
    ∧ (neighbourCandidates 4 4 1 0).length ≤ 5
    ∧ (neighbourCandidates 4 4 1 1).length = 8 :=
  ⟨(C7_candidate_counts 4 4 0 0 (by decide) (by decide) (by decide) (by decide)).1 _,
    (C7_candidate_counts 4 4 0 0 (by decide) (by decide) (by decide) (by decide)).2.1
      (by decide),
    (C7_candidate_counts 4 4 1 0 (by decide) (by decide) (by decide) (by decide)).2.2.1
      (by decide),
    (C7_candidate_counts 4 4 1 1 (by decide) (by decide) (by decide) (by decide)).2.2.2
      (by decide)⟩

/-! ## Claim C8 -/

/-- C8: `generate(p)` evaluates the predicate at every in-bounds coordinate
and assigns it to the corresponding row-major cell (flat index `y*W + x`). -/
theorem C8_generate_assigns_predicate (W H : Nat) (method : Nat → Nat → Bool)
    (x y : Nat) (hx : x < W) (hy : y < H) :
    (Board.generate method : Board W H).get x y = method x y
    ∧ (Board.generate method : Board W H).fields.getD (y * W + x) false = method x y := by
  have h := Board.get_generate (W := W) (H := H) method x y hx hy
  exact ⟨h, h⟩

/-- Witness for C8 at a concrete predicate and cell. -/
theorem C8_witness :
    (Board.generate (fun a b => decide (a = b)) : Board 2 2).get 0 1
      = decide ((0 : Nat) = 1) :=
  (C8_generate_assigns_predicate 2 2 (fun a b => decide (a = b)) 0 1
    (by decide) (by decide)).1

/-! ## Claim C5 -/

/-- C5: `clear()` produces the all-dead board, and the all-dead board is a
fixed point of `next` (cell-for-cell, in fact as a full board equality). -/
theorem C5_clear_fixed_point (W H : Nat) :
    (∀ x y, x < W → y < H → (Board.clear : Board W H).get x y = false)
    ∧ (Board.clear : Board W H).next = Board.clear := by
  refine ⟨fun x y _ _ => Board.get_clear x y, ?_⟩
  have hn : ∀ x y : Nat, (Board.clear : Board W H).neighbours x y = 0 := by
    intro x y
    rw [Board.neighbours_eq_countP, List.countP_eq_zero]
    intro p _
    simp [Board.get_clear]
  rw [Board.next_eq_generate_lifeRule]
  have hz : (Board.generate (fun x y =>
        lifeRule ((Board.clear : Board W H).get x y)
          ((Board.clear : Board W H).neighbours x y)) : Board W H)
      = Board.generate (fun _ _ => false) := by
    apply Board.generate_congr
    intro x y
    rw [Board.get_clear, hn]
    rfl
  rw [hz]
  unfold Board.generate Board.clear Board.new
  congr 1
  have hmap : ∀ l : List Nat,
      l.map (fun n => (fun _ _ : Nat => false) (n % W) (n / W))
        = List.replicate l.length false := by
    intro l
    induction l with
    | nil => rfl
    | cons a l ih => simp [List.replicate_succ, ih]
  rw [hmap, List.length_range]

/-- Witness for C5 at concrete dimensions. -/
theorem C5_witness :
    (Board.clear : Board 3 2).get 2 1 = false
    ∧ (Board.clear : Board 3 2).next = Board.clear :=
  ⟨(C5_clear_fixed_point 3 2).1 2 1 (by decide) (by decide),
    (C5_clear_fixed_point 3 2).2⟩

/-! ## Claim C6 -/

/-- C6: every board produced by `clear`, `generate`, `random`, `perlin`,
`billow`, `worley`, `glider`, `glider_gun` or `next` has a backing storage of
exactly `W*H` booleans; the in-place edits (`set`, `line`, `draw`) never
change the element count; in particular `next` preserves the dimensions. -/
theorem C6_storage_size (W H : Nat) :
    (Board.clear : Board W H).fields.length = W * H
    ∧ (∀ method, (Board.generate method : Board W H).fields.length = W * H)
    ∧ (∀ coin, (Board.random coin : Board W H).fields.length = W * H)
    ∧ (∀ sample, (Board.perlin sample : Board W H).fields.length = W * H)
    ∧ (∀ sample, (Board.billow sample : Board W H).fields.length = W * H)
    ∧ (∀ sample, (Board.worley sample : Board W H).fields.length = W * H)
    ∧ (Board.glider : Board W H).fields.length = W * H
    ∧ (Board.glider_gun : Board W H).fields.length = W * H
    ∧ (∀ b : Board W H, (b.next).fields.length = W * H)
    ∧ (∀ (b : Board W H) x y v, (b.set x y v).fields.length = b.fields.length)
    ∧ (∀ (b : Board W H) x1 y1 x2 y2 v,
        (b.line x1 y1 x2 y2 v).fields.length = b.fields.length)
    ∧ (∀ (b : Board W H) xo yo grid,
        (b.draw xo yo grid).fields.length = b.fields.length) := by
  have hc : (Board.clear : Board W H).fields.length = W * H := by
    rw [Board.length_clear, Nat.mul_comm]
  have hg : ∀ method, (Board.generate method : Board W H).fields.length = W * H := by
    intro method
    rw [Board.length_generate, Nat.mul_comm]
  refine ⟨hc, hg, fun coin => hg _, fun s => hg _, fun s => hg _, fun s => hg _,
    (Board.length_draw Board.clear 10 10 _).trans hc,
    (Board.length_draw Board.clear 10 10 _).trans hc,
    fun b => hg _,
    fun b x y v => Board.length_set b x y v,
    fun b x1 y1 x2 y2 v => Board.length_line b x1 y1 x2 y2 v,
    fun b xo yo grid => Board.length_draw b xo yo grid⟩

/-! ### Evaluating `Board::line` on the claims' endpoints -/

theorem line_coord_one (i : Nat) :
    usizeOfF32 (some (((0:Nat) : ℚ) + roundF ((1:ℚ) * (i : ℚ)))) = i := by
  have h1 : ((0:Nat) : ℚ) + roundF ((1:ℚ) * (i : ℚ)) = (i : ℚ) := by
    rw [one_mul, roundF, if_neg (not_lt.mpr (by positivity))]
    rw [Int.floor_nat_add]
    have hhalf : (⌊(1/2 : ℚ)⌋ : Int) = 0 := by
      rw [Int.floor_eq_iff]
      norm_num
    rw [hhalf]
    push_cast
    ring
  rw [h1]
  simp only [usizeOfF32]
  rw [if_neg (not_lt.mpr (Nat.cast_nonneg i)), Int.floor_natCast, Int.toNat_ofNat]

theorem line_coord_zero (i : Nat) :
    usizeOfF32 (some (((0:Nat) : ℚ) + roundF ((0:ℚ) * (i : ℚ)))) = 0 := by
  have h1 : ((0:Nat) : ℚ) + roundF ((0:ℚ) * (i : ℚ)) = 0 := by
    rw [zero_mul, roundF, if_neg (by norm_num)]
    have hhalf : (⌊(0:ℚ) + 1/2⌋ : Int) = 0 := by
      rw [Int.floor_eq_iff]
      norm_num
    rw [hhalf]
    push_cast
    ring
  rw [h1]
  simp [usizeOfF32]

/-- With both endpoints equal, `md = 0`, both per-step factors are `0/0` NaN,
and the single iteration writes cell `(0, 0)`. -/
theorem Board.line_self (b : Board W H) (x y : Nat) (v : Bool) :
    b.line x y x y v = b.set 0 0 v := by
  simp only [Board.line]
  have hxd : (x : Int) - (x : Int) = 0 := by omega
  have hyd : (y : Int) - (y : Int) = 0 := by omega
  rw [hxd, hyd]
  rfl

/-- `line(0,0,3,0,v)` writes exactly the four cells `(0,0) .. (3,0)` in
order. -/
theorem Board.line_horizontal_eval (b : Board W H) (v : Bool) :
    b.line 0 0 3 0 v = (((b.set 0 0 v).set 1 0 v).set 2 0 v).set 3 0 v := by
  simp only [Board.line]
  have hmd : (((3:Nat) : Int) - ((0:Nat) : Int)).natAbs
      ⊔ (((0:Nat) : Int) - ((0:Nat) : Int)).natAbs = 3 := by norm_num
  rw [hmd]
  have hxf : fdiv (((3:Nat) : Int) - ((0:Nat) : Int)) 3 = some 1 := by
    simp only [fdiv]
    norm_num
  have hyf : fdiv (((0:Nat) : Int) - ((0:Nat) : Int)) 3 = some 0 := by
    simp only [fdiv]
    norm_num
  rw [hxf, hyf]
  have hr : rangeIncl 0 3 = [0, 1, 2, 3] := rfl
  rw [hr]
  simp only [List.foldl_cons, List.foldl_nil, Option.map_some']
  rw [line_coord_one 0, line_coord_one 1, line_coord_one 2, line_coord_one 3,
    line_coord_zero 0, line_coord_zero 1, line_coord_zero 2, line_coord_zero 3]

/-! ## Claim C4 -/

/-- C4: on any board with `W ≥ 4`, `H ≥ 1` (with the storage invariant),
`line((0,0),(0,0),v)` writes exactly one cell — `(0,0)` — to `v` and leaves
every other cell unchanged, and `line((0,0),(3,0),v)` writes exactly the four
cells `(0,0), (1,0), (2,0), (3,0)` to `v` and leaves every other cell
unchanged. -/
theorem C4_line_endpoints (b : Board W H) (v : Bool) (hW : 4 ≤ W) (hH : 1 ≤ H)
    (hlen : b.fields.length = H * W) :
    ((b.line 0 0 0 0 v).get 0 0 = v
      ∧ ∀ x y, x < W → y < H → ¬(x = 0 ∧ y = 0) →
          (b.line 0 0 0 0 v).get x y = b.get x y)
    ∧ ((∀ i, i ≤ 3 → (b.line 0 0 3 0 v).get i 0 = v)
      ∧ ∀ x y, x < W → y < H → ¬(x ≤ 3 ∧ y = 0) →
          (b.line 0 0 3 0 v).get x y = b.get x y) := by
  have hW0 : 0 < W := by omega
  have hH0 : 0 < H := by omega
  have hl0 : H * W ≤ b.fields.length := le_of_eq hlen.symm
  have hl1 : H * W ≤ (b.set 0 0 v).fields.length := by
    rw [Board.length_set]
    exact hl0
  have hl2 : H * W ≤ ((b.set 0 0 v).set 1 0 v).fields.length := by
    rw [Board.length_set, Board.length_set]
    exact hl0
  have hl3 : H * W ≤ (((b.set 0 0 v).set 1 0 v).set 2 0 v).fields.length := by
    rw [Board.length_set, Board.length_set, Board.length_set]
    exact hl0
  have he0 : b.line 0 0 0 0 v = b.set 0 0 v := Board.line_self b 0 0 v
  have hchain : ∀ x y, x < W → y < H →
      ((((b.set 0 0 v).set 1 0 v).set 2 0 v).set 3 0 v).get x y
        = if x ≤ 3 ∧ y = 0 then v else b.get x y := by
    intro x y hx hy
    rw [Board.get_set _ 3 0 x y v hl3 (by omega) hH0 hx hy,
      Board.get_set _ 2 0 x y v hl2 (by omega) hH0 hx hy,
      Board.get_set _ 1 0 x y v hl1 (by omega) hH0 hx hy,
      Board.get_set b 0 0 x y v hl0 hW0 hH0 hx hy]
    by_cases hcov : x ≤ 3 ∧ y = 0
    · rw [if_pos hcov]
      obtain ⟨hx3, rfl⟩ := hcov
      interval_cases x <;> simp
    · rw [if_neg hcov,
        if_neg (by omega : ¬(x = 3 ∧ y = 0)),
        if_neg (by omega : ¬(x = 2 ∧ y = 0)),
        if_neg (by omega : ¬(x = 1 ∧ y = 0)),
        if_neg (by omega : ¬(x = 0 ∧ y = 0))]
  refine ⟨⟨?_, ?_⟩, ?_, ?_⟩
  · rw [he0, Board.get_set b 0 0 0 0 v hl0 hW0 hH0 hW0 hH0, if_pos ⟨rfl, rfl⟩]
  · intro x y hx hy hne
    rw [he0, Board.get_set b 0 0 x y v hl0 hW0 hH0 hx hy, if_neg hne]
  · intro i hi
    rw [Board.line_horizontal_eval b v, hchain i 0 (by omega) hH0, if_pos ⟨hi, rfl⟩]
  · intro x y hx hy hne
    rw [Board.line_horizontal_eval b v, hchain x y hx hy, if_neg hne]

/-- Witness for C4 on a concrete 5×1 board. -/
theorem C4_witness :
    (((Board.new (List.replicate 5 false) : Board 5 1).line 0 0 0 0 true).get 0 0 = true)
    ∧ (((Board.new (List.replicate 5 false) : Board 5 1).line 0 0 0 0 true).get 2 0
        = (Board.new (List.replicate 5 false) : Board 5 1).get 2 0)
    ∧ (((Board.new (List.replicate 5 false) : Board 5 1).line 0 0 3 0 true).get 3 0 = true)
    ∧ (((Board.new (List.replicate 5 false) : Board 5 1).line 0 0 3 0 true).get 4 0
        = (Board.new (List.replicate 5 false) : Board 5 1).get 4 0) :=
  ⟨(C4_line_endpoints _ true (by decide) (by decide) (by decide)).1.1,
    (C4_line_endpoints _ true (by decide) (by decide) (by decide)).1.2 2 0
      (by decide) (by decide) (by decide),
    (C4_line_endpoints _ true (by decide) (by decide) (by decide)).2.1 3 (by decide),
    (C4_line_endpoints _ true (by decide) (by decide) (by decide)).2.2 4 0
      (by decide) (by decide) (by decide)⟩

/-! ## Claim C9 -/

/-- C9: a `line` call with both endpoints at the same in-bounds point
`(x, y) ≠ (0, 0)` does not write cell `(x, y)`: the step count `md` is 0, the
per-step increments are `0/0` NaN, the NaN coordinates cast to 0, and the
single write goes to cell `(0, 0)` instead. -/
theorem C9_degenerate_line_writes_origin (b : Board W H) (x y : Nat) (v : Bool)
    (hne : ¬(x = 0 ∧ y = 0)) (hx : x < W) (hy : y < H) :
    b.line x y x y v = b.set 0 0 v
    ∧ (b.line x y x y v).get x y = b.get x y := by
  refine ⟨Board.line_self b x y v, ?_⟩
  rw [Board.line_self b x y v]
  unfold Board.set Board.get
  have hW0 : 0 < W := Nat.lt_of_le_of_lt (Nat.zero_le x) hx
  have hidx : y * W + x ≠ 0 := by
    rcases Nat.eq_zero_or_pos y with h | h
    · subst h
      simpa using fun hx0 => hne ⟨hx0, rfl⟩
    · have : W ≤ y * W := Nat.le_mul_of_pos_left W h
      omega
  have hne2 : 0 * W + 0 ≠ y * W + x := by omega
  rw [List.getD_eq_getElem?_getD, List.getD_eq_getElem?_getD, List.getElem?_set_ne hne2]

/-- Witness for C9: on a 2×1 board, `line((1,0),(1,0))` writes `(0,0)` and
leaves `(1,0)` unchanged. -/
theorem C9_witness :
    (Board.new [false, false] : Board 2 1).line 1 0 1 0 true
        = (Board.new [false, false] : Board 2 1).set 0 0 true
    ∧ ((Board.new [false, false] : Board 2 1).line 1 0 1 0 true).get 1 0
        = (Board.new [false, false] : Board 2 1).get 1 0 :=
  C9_degenerate_line_writes_origin _ 1 0 true (by decide) (by decide) (by decide)

/-! ### Characterising `Board::draw` -/

theorem Board.get_drawRow (xo ya : Nat) (cs : List Char) (x y : Nat)
    (hx : x < W) (hy : y < H) (hya : ya < H) :
    ∀ (b : Board W H) (x0 : Nat), H * W ≤ b.fields.length →
      xo + x0 + cs.length ≤ W →
    (b.drawRow xo ya x0 cs).get x y
      = if ya = y ∧ xo + x0 ≤ x ∧ x < xo + x0 + cs.length
        then (cs.getD (x - (xo + x0)) ' ' == '#')
        else b.get x y := by
  induction cs with
  | nil =>
    intro b x0 hlen hfit
    rw [Board.drawRow, if_neg (by simp only [List.length_nil]; omega)]
  | cons c cs ih =>
    intro b x0 hlen hfit
    simp only [List.length_cons] at hfit
    rw [Board.drawRow]
    rw [ih _ (x0 + 1) (by rw [Board.length_set]; exact hlen) (by omega)]
    rw [Board.get_set b (xo + x0) ya x y _ hlen (by omega) hya hx hy]
    simp only [List.length_cons]
    by_cases hyy : ya = y
    · subst hyy
      rcases Nat.lt_or_ge x (xo + x0) with hlt | hge
      · rw [if_neg (by omega), if_neg (by omega), if_neg (by omega)]
      · rcases Nat.eq_or_lt_of_le hge with heq | hgt
        · have h0 : x - (xo + x0) = 0 := by omega
          rw [if_neg (by omega), if_pos (by omega : x = xo + x0 ∧ ya = ya),
            if_pos (⟨rfl, by omega, by omega⟩ :
              ya = ya ∧ xo + x0 ≤ x ∧ x < xo + x0 + (cs.length + 1))]
          rw [h0, List.getD_cons_zero]
        · by_cases hin : x < xo + (x0 + 1) + cs.length
          · have hsucc : x - (xo + x0) = (x - (xo + (x0 + 1))) + 1 := by omega
            rw [if_pos (⟨rfl, by omega, hin⟩ :
                ya = ya ∧ xo + (x0 + 1) ≤ x ∧ x < xo + (x0 + 1) + cs.length),
              if_pos (⟨rfl, by omega, by omega⟩ :
                ya = ya ∧ xo + x0 ≤ x ∧ x < xo + x0 + (cs.length + 1))]
            rw [hsucc, List.getD_cons_succ]
          · rw [if_neg (by omega), if_neg (by omega), if_neg (by omega)]
    · rw [if_neg (by omega), if_neg (by omega), if_neg (by omega)]

theorem Board.get_drawRows (xo yo : Nat) (grid : List String) (x y : Nat)
    (hx : x < W) (hy : y < H) :
    ∀ (b : Board W H) (y0 : Nat), H * W ≤ b.fields.length →
      yo + y0 + grid.length ≤ H → (∀ s ∈ grid, xo + s.length ≤ W) →
    (b.drawRows xo yo y0 grid).get x y
      = if yo + y0 ≤ y ∧ y - (yo + y0) < grid.length
            ∧ xo ≤ x ∧ x < xo + (grid.getD (y - (yo + y0)) "").length
        then ((grid.getD (y - (yo + y0)) "").toList.getD (x - xo) ' ' == '#')
        else b.get x y := by
  induction grid with
  | nil =>
    intro b y0 hlen hfith hfitw
    rw [Board.drawRows, if_neg (by simp only [List.length_nil]; omega)]
  | cons s grid ih =>
    intro b y0 hlen hfith hfitw
    simp only [List.length_cons] at hfith
    rw [Board.drawRows]
    rw [ih _ (y0 + 1) (by rw [Board.length_drawRow]; exact hlen) (by omega)
      (fun t ht => hfitw t (List.mem_cons_of_mem s ht))]
    have hsl : s.toList.length = s.length := rfl
    rw [Board.get_drawRow xo (yo + y0) s.toList x y hx hy (by omega) b 0 hlen
      (by rw [hsl]; have := hfitw s (List.mem_cons_self s grid); omega)]
    simp only [List.length_cons, Nat.add_zero]
    rcases Nat.lt_or_ge y (yo + y0) with hlt | hge
    · rw [if_neg (by omega), if_neg (by omega), if_neg (by omega)]
    · rcases Nat.eq_or_lt_of_le hge with heq | hgt
      · -- y is exactly the row written by this iteration
        have h0 : y - (yo + y0) = 0 := by omega
        rw [h0, List.getD_cons_zero]
        rw [if_neg (by omega)]
        by_cases hxc : xo ≤ x ∧ x < xo + s.length
        · rw [if_pos (by omega : yo + y0 = y ∧ xo ≤ x ∧ x < xo + s.toList.length),
            if_pos (by omega : yo + y0 ≤ y ∧ 0 < grid.length + 1
              ∧ xo ≤ x ∧ x < xo + s.length)]
        · rw [if_neg (by rw [hsl]; omega), if_neg (by omega)]
      · -- y is below the row written by this iteration
        have hsucc : y - (yo + y0) = (y - (yo + (y0 + 1))) + 1 := by omega
        rw [hsucc, List.getD_cons_succ]
        rw [if_neg (show ¬(yo + y0 = y ∧ xo ≤ x ∧ x < xo + s.toList.length) by omega)]
        by_cases hA : yo + (y0 + 1) ≤ y ∧ y - (yo + (y0 + 1)) < grid.length
            ∧ xo ≤ x ∧ x < xo + (grid.getD (y - (yo + (y0 + 1))) "").length
        · rw [if_pos hA, if_pos (show yo + y0 ≤ y
            ∧ (y - (yo + (y0 + 1))) + 1 < grid.length + 1
            ∧ xo ≤ x ∧ x < xo + (grid.getD (y - (yo + (y0 + 1))) "").length by omega)]
        · rw [if_neg hA, if_neg (show ¬(yo + y0 ≤ y
            ∧ (y - (yo + (y0 + 1))) + 1 < grid.length + 1
            ∧ xo ≤ x ∧ x < xo + (grid.getD (y - (yo + (y0 + 1))) "").length) by omega)]

/-- Full characterisation of `Board::draw`: covered cells get exactly the
stamped character's aliveness, all other cells are untouched. -/
theorem Board.get_draw (b : Board W H) (xo yo : Nat) (grid : List String)
    (hlen : b.fields.length = H * W)
    (hfith : yo + grid.length ≤ H)
    (hfitw : ∀ s ∈ grid, xo + s.length ≤ W)
    (x y : Nat) (hx : x < W) (hy : y < H) :
    (b.draw xo yo grid).get x y
      = if yo ≤ y ∧ y - yo < grid.length
            ∧ xo ≤ x ∧ x < xo + (grid.getD (y - yo) "").length
        then ((grid.getD (y - yo) "").toList.getD (x - xo) ' ' == '#')
        else b.get x y := by
  exact Board.get_drawRows xo yo grid x y hx hy b 0 (le_of_eq hlen.symm)
    (by omega) hfitw

/-! ## Claim C10 -/

/-- C10: for every board and in-bounds stamp, `draw` assigns to each covered
cell exactly the value `(character == '#')` regardless of that cell's prior
state — a space overwrites a previously-alive cell to dead — and every cell
outside the stamp is left unchanged. -/
theorem C10_draw_overwrites (b : Board W H) (xo yo : Nat) (grid : List String)
    (hlen : b.fields.length = H * W)
    (hfith : yo + grid.length ≤ H)
    (hfitw : ∀ s ∈ grid, xo + s.length ≤ W)
    (x y : Nat) (hx : x < W) (hy : y < H) :
    (b.draw xo yo grid).get x y
      = if yo ≤ y ∧ y - yo < grid.length
            ∧ xo ≤ x ∧ x < xo + (grid.getD (y - yo) "").length
        then ((grid.getD (y - yo) "").toList.getD (x - xo) ' ' == '#')
        else b.get x y :=
  Board.get_draw b xo yo grid hlen hfith hfitw x y hx hy

/-- Witness for C10: on an all-alive 3×2 board, a stamp with a space row
overwrites the previously-alive covered cell. -/
theorem C10_witness :
    ((Board.new (List.replicate 6 true) : Board 3 2).draw 1 0 ["#", " "]).get 1 1
      = if (0 : Nat) ≤ 1 ∧ 1 - 0 < (["#", " "] : List String).length
            ∧ (1 : Nat) ≤ 1 ∧ 1 < 1 + ((["#", " "] : List String).getD (1 - 0) "").length
        then (((["#", " "] : List String).getD (1 - 0) "").toList.getD (1 - 1) ' ' == '#')
        else (Board.new (List.replicate 6 true) : Board 3 2).get 1 1 :=
  C10_draw_overwrites _ 1 0 ["#", " "] (by decide) (by decide) (by decide) 1 1
    (by decide) (by decide)

/-! ### Locality machinery for the glider regression (C3) -/

/-- The glider board has exactly the five `gliderCells` alive. -/
theorem glider_matches (hW : 20 ≤ W) (hH : 20 ≤ H) :
    BoardMatches (Board.glider : Board W H) gliderCells := by
  intro x y hx hy
  have hg : (Board.glider : Board W H)
      = ((((((((Board.clear.set 10 10 false).set 11 10 false).set 12 10 true).set
          10 11 true).set 11 11 false).set 12 11 true).set 10 12 false).set
          11 12 true).set 12 12 true := rfl
  rw [hg]
  rw [Board.get_set _ 12 12 x y true
    (by simp [Board.length_set, Board.length_clear]) (by omega) (by omega) hx hy]
  rw [Board.get_set _ 11 12 x y true
    (by simp [Board.length_set, Board.length_clear]) (by omega) (by omega) hx hy]
  rw [Board.get_set _ 10 12 x y false
    (by simp [Board.length_set, Board.length_clear]) (by omega) (by omega) hx hy]
  rw [Board.get_set _ 12 11 x y true
    (by simp [Board.length_set, Board.length_clear]) (by omega) (by omega) hx hy]
  rw [Board.get_set _ 11 11 x y false
    (by simp [Board.length_set, Board.length_clear]) (by omega) (by omega) hx hy]
  rw [Board.get_set _ 10 11 x y true
    (by simp [Board.length_set, Board.length_clear]) (by omega) (by omega) hx hy]
  rw [Board.get_set _ 12 10 x y true
    (by simp [Board.length_set, Board.length_clear]) (by omega) (by omega) hx hy]
  rw [Board.get_set _ 11 10 x y false
    (by simp [Board.length_set, Board.length_clear]) (by omega) (by omega) hx hy]
  rw [Board.get_set _ 10 10 x y false
    (by simp [Board.length_set, Board.length_clear]) (by omega) (by omega) hx hy]
  split_ifs with h1 h2 h3 h4 h5 h6 h7 h8 h9
  · obtain ⟨rfl, rfl⟩ := h1
    decide
  · obtain ⟨rfl, rfl⟩ := h2
    decide
  · obtain ⟨rfl, rfl⟩ := h3
    decide
  · obtain ⟨rfl, rfl⟩ := h4
    decide
  · obtain ⟨rfl, rfl⟩ := h5
    decide
  · obtain ⟨rfl, rfl⟩ := h6
    decide
  · obtain ⟨rfl, rfl⟩ := h7
    decide
  · obtain ⟨rfl, rfl⟩ := h8
    decide
  · obtain ⟨rfl, rfl⟩ := h9
    decide
  · rw [Board.get_clear]
    symm
    rw [decide_eq_false_iff_not]
    intro hmem
    simp only [gliderCells, List.mem_cons, List.not_mem_nil, or_false,
      Prod.mk.injEq] at hmem
    rcases hmem with ⟨rfl, rfl⟩ | ⟨rfl, rfl⟩ | ⟨rfl, rfl⟩ | ⟨rfl, rfl⟩ | ⟨rfl, rfl⟩
    · exact h7 ⟨rfl, rfl⟩
    · exact h6 ⟨rfl, rfl⟩
    · exact h4 ⟨rfl, rfl⟩
    · exact h2 ⟨rfl, rfl⟩
    · exact h1 ⟨rfl, rfl⟩

/-- For an in-bounds centre cell, membership in the candidate list of
`Board::neighbours` normalised to clamp-free bounds. -/
theorem mem_neighbourCandidates_bounds {W H x y px py : Nat}
    (hx : x < W) (hy : y < H) :
    (px, py) ∈ neighbourCandidates W H x y ↔
      (x ≤ px + 1 ∧ px ≤ x + 1 ∧ px < W
        ∧ y ≤ py + 1 ∧ py ≤ y + 1 ∧ py < H
        ∧ (px, py) ≠ (x, y)) := by
  rw [mem_neighbourCandidates]
  constructor
  · rintro ⟨h1, h2, h3, h4, h5⟩
    refine ⟨?_, ?_, ?_, ?_, ?_, ?_, h5⟩
    · split at h1 <;> omega
    · split at h2 <;> omega
    · split at h2 <;> omega
    · split at h3 <;> omega
    · split at h4 <;> omega
    · split at h4 <;> omega
  · rintro ⟨h1, h2, h3, h4, h5, h6, h7⟩
    refine ⟨?_, ?_, ?_, ?_, h7⟩
    · split <;> omega
    · split <;> omega
    · split <;> omega
    · split <;> omega

/-- One step of `next` on a board whose alive set is a concrete list `S` kept
at distance ≥ 2 from the right/bottom borders: the next board's alive set is
any `Snext` that satisfies the Life rule pointwise against the local counts
of `S`. -/
theorem matches_next (b : Board W H) (S Snext : List (Nat × Nat)) (hS : S.Nodup)
    (hmargin : ∀ q ∈ S, q.1 + 1 < W ∧ q.2 + 1 < H)
    (hb : BoardMatches b S)
    (hrule : ∀ x y : Nat, lifeRule (decide ((x, y) ∈ S)) (localCount S x y)
        = decide ((x, y) ∈ Snext)) :
    BoardMatches (b.next) Snext := by
  intro x y hx hy
  rw [Board.get_next b x y hx hy]
  have hcb : ∀ p ∈ neighbourCandidates W H x y, p.1 < W ∧ p.2 < H := by
    intro p hp
    obtain ⟨p1, p2⟩ := p
    rw [mem_neighbourCandidates_bounds hx hy] at hp
    exact ⟨hp.2.2.1, hp.2.2.2.2.2.1⟩
  have hnc : b.neighbours x y = localCount S x y := by
    rw [Board.neighbours_eq_countP]
    have h1 : (neighbourCandidates W H x y).countP (fun p => b.get p.1 p.2)
        = (neighbourCandidates W H x y).countP (fun p => decide (p ∈ S)) := by
      apply List.countP_congr
      intro p hp
      have hpb := hcb p hp
      rw [hb p.1 p.2 hpb.1 hpb.2]
    rw [h1, countP_mem_comm (nodup_neighbourCandidates W H x y) hS]
    rw [localCount, ← List.countP_eq_length_filter]
    apply List.countP_congr
    intro q hq
    obtain ⟨q1, q2⟩ := q
    obtain ⟨hm1, hm2⟩ := hmargin _ hq
    simp only [decide_eq_true_eq, Bool.and_eq_true, cellNear,
      mem_neighbourCandidates_bounds hx hy, ne_eq, Prod.mk.injEq, not_and]
    omega
  rw [hnc, hb x y hx hy]
  exact hrule x y

/-- The pointwise Life-rule check between two concrete cell sets reduces to a
finite check on the box around them: outside, everything is dead and stays
dead. -/
theorem rule_of_box (S Snext : List (Nat × Nat)) (lo hi : Nat)
    (hbox : ∀ q ∈ S, lo ≤ q.1 ∧ q.1 ≤ hi ∧ lo ≤ q.2 ∧ q.2 ≤ hi)
    (hbox' : ∀ q ∈ Snext, lo - 1 ≤ q.1 ∧ q.1 ≤ hi + 1 ∧ lo - 1 ≤ q.2 ∧ q.2 ≤ hi + 1)
    (hfin : ∀ x ∈ rangeIncl (lo - 1) (hi + 1), ∀ y ∈ rangeIncl (lo - 1) (hi + 1),
        lifeRule (decide ((x, y) ∈ S)) (localCount S x y) = decide ((x, y) ∈ Snext)) :
    ∀ x y : Nat, lifeRule (decide ((x, y) ∈ S)) (localCount S x y)
      = decide ((x, y) ∈ Snext) := by
  intro x y
  by_cases hin : (lo - 1 ≤ x ∧ x ≤ hi + 1) ∧ (lo - 1 ≤ y ∧ y ≤ hi + 1)
  · exact hfin x (mem_rangeIncl.mpr hin.1) y (mem_rangeIncl.mpr hin.2)
  · have hSm : decide ((x, y) ∈ S) = false := by
      rw [decide_eq_false_iff_not]
      intro hmem
      obtain ⟨a1, a2, a3, a4⟩ := hbox _ hmem
      omega
    have hS'm : decide ((x, y) ∈ Snext) = false := by
      rw [decide_eq_false_iff_not]
      intro hmem
      obtain ⟨a1, a2, a3, a4⟩ := hbox' _ hmem
      omega
    have hcnt : localCount S x y = 0 := by
      rw [localCount, ← List.countP_eq_length_filter, List.countP_eq_zero]
      intro q hq
      obtain ⟨q1, q2⟩ := q
      obtain ⟨a1, a2, a3, a4⟩ := hbox _ hq
      simp only [Bool.and_eq_true, decide_eq_true_eq, cellNear, ne_eq,
        Prod.mk.injEq, not_and]
      omega
    rw [hSm, hS'm, hcnt]
    rfl

/-! ## Claim C3 -/

/-- C3: on any board of dimensions at least 20×20 that is all dead except for
the glider stamped at `(10, 10)`, four applications of `next` yield the board
whose alive cells are exactly the original five glider cells translated by
`(+1, +1)`, every other cell dead. -/
theorem C3_glider_after_four_steps (W H : Nat) (hW : 20 ≤ W) (hH : 20 ≤ H)
    (x y : Nat) (hx : x < W) (hy : y < H) :
    ((((Board.glider : Board W H).next).next).next).next.get x y
      = decide ((x, y) ∈ gliderCells.map (fun p => (p.1 + 1, p.2 + 1))) := by
  have hmar : ∀ (S : List (Nat × Nat)), (∀ q ∈ S, q.1 ≤ 14 ∧ q.2 ≤ 14) →
      ∀ q ∈ S, q.1 + 1 < W ∧ q.2 + 1 < H := by
    intro S hS q hq
    have := hS q hq
    omega
  have h0 : BoardMatches (Board.glider : Board W H) gliderCells :=
    glider_matches hW hH
  have h1 : BoardMatches (Board.glider : Board W H).next
      [(11, 10), (12, 11), (13, 11), (11, 12), (12, 12)] :=
    matches_next _ _ _ (by decide) (hmar _ (by decide)) h0
      (rule_of_box _ _ 10 14 (by decide) (by decide) (by decide))
  have h2 : BoardMatches (Board.glider : Board W H).next.next
      [(12, 10), (13, 11), (11, 12), (12, 12), (13, 12)] :=
    matches_next _ _ _ (by decide) (hmar _ (by decide)) h1
      (rule_of_box _ _ 10 14 (by decide) (by decide) (by decide))
  have h3 : BoardMatches (Board.glider : Board W H).next.next.next
      [(11, 11), (13, 11), (12, 12), (13, 12), (12, 13)] :=
    matches_next _ _ _ (by decide) (hmar _ (by decide)) h2
      (rule_of_box _ _ 10 14 (by decide) (by decide) (by decide))
  have h4 : BoardMatches (Board.glider : Board W H).next.next.next.next
      (gliderCells.map (fun p => (p.1 + 1, p.2 + 1))) :=
    matches_next _ _ _ (by decide) (hmar _ (by decide)) h3
      (rule_of_box _ _ 10 14 (by decide) (by decide) (by decide))
  exact h4 x y hx hy

/-- Witness for C3 at dimensions 20×20 and the head cell of the translated
glider. -/
theorem C3_witness :
    ((((Board.glider : Board 20 20).next).next).next).next.get 13 11
      = decide ((13, 11) ∈ gliderCells.map (fun p => (p.1 + 1, p.2 + 1))) :=
  C3_glider_after_four_steps 20 20 (by decide) (by decide) 13 11
    (by decide) (by decide)
